import Mathlib

/-!
Verification of the multi-line progress coordinator in `src/multi.rs`
(crate `pb`, module `multi`).

The embedding follows the source closely:
* `WriteMsg` mirrors the Rust `enum WriteMsg` (log payloads are raw bytes,
  modelled as `List Nat`);
* `ParsedMessage` mirrors `enum ParsedMessage`;
* `parse_message` mirrors `MultiBarListener::parse_message`; a Rust panic
  (out-of-bounds index) is modelled as `none`;
* `drawRows`/`redraw` mirror the row-drawing loop of
  `MultiBarListener::redraw`, with the external `tty` escape-sequence
  producers abstracted as output tokens (`Out`);
* `warmup`/`listenStart`/`steadyStep` mirror `MultiBarListener::listen`;
* `MultiBarLine.sendMsg` and friends mirror `MultiBarLine::send`,
  `update_line`, `remove_line`, `log`, `finish`; the two `unwrap`s in
  `send` are modelled as explicit panic outcomes;
* `LogTarget.write` / `LogTarget.flush` mirror the `Write` impl of
  `LogTarget`.
-/

/-- Mirrors Rust `enum WriteMsg`: the message format used to communicate
between `MultiBar` and its bars. `Log` carries raw bytes (`Vec<u8>`). -/
inductive WriteMsg where
  | UpdateLine (level : Nat) (line : String)
  | RemoveLine (level : Nat)
  | Log (data : List Nat)
deriving DecidableEq, Repr

/-- Mirrors Rust `enum ParsedMessage` (classification of an incoming
message by the coordinator). -/
inductive ParsedMessage where
  | NoChanges
  | Changed (level : Nat)
  | Log (data : List Nat)
  | Refresh
deriving DecidableEq, Repr

/-- The coordinator's row table: `lines: Vec<Option<String>>` in the
source. A slot is `some text` when present, `none` when absent. -/
abbrev RowTable := List (Option String)

/-- Mirrors `MultiBarListener::parse_message`. Returns the updated row
table together with the classification. A result of `none` models a Rust
panic: `WriteMsg::RemoveLine` indexes `self.lines[level]` directly, which
panics when `level >= self.lines.len()`. `Vec::resize(level + 1, None)`
is modelled by appending `none` slots. -/
def parse_message (lines : RowTable) (msg : WriteMsg) :
    Option (RowTable × ParsedMessage) :=
  match msg with
  | .UpdateLine level line =>
      if lines.length ≤ level then
        -- lines.resize(level + 1, None); lines[level] = Some(line)
        some (((lines ++ List.replicate (level + 1 - lines.length) none).set
          level (some line)), .Refresh)
      else if (lines.getD level none).isNone then
        -- wasn't there before, refresh
        some (lines.set level (some line), .Refresh)
      else
        -- just an update, could be optimized
        some (lines.set level (some line), .Changed level)
  | .RemoveLine level =>
      if level < lines.length then
        some (lines.set level none, .Refresh)
      else
        none
  | .Log d =>
      if d.isEmpty then
        some (lines, .NoChanges)
      else
        some (lines, .Log d)

/-- Whether slot `l` of the row table is populated (present). -/
def slotPresent (lines : RowTable) (l : Nat) : Bool :=
  (lines.getD l none).isSome

/-- Process a sequence of messages through `parse_message`, threading the
row table; `none` as soon as any single message panics. -/
def processMsgs (lines : RowTable) : List WriteMsg → Option RowTable
  | [] => some lines
  | m :: ms =>
      match parse_message lines m with
      | none => none
      | some (lines', _) => processMsgs lines' ms

/-- The value `lastIsUpdate l b msgs` is `true` iff the most recent update-or-remove
message for level `l` in `msgs` is an update (`b` is the value when no such
message occurs; log messages are ignored). -/
def lastIsUpdate (l : Nat) (b : Bool) : List WriteMsg → Bool
  | [] => b
  | .UpdateLine l' _ :: ms => lastIsUpdate l (if l' = l then true else b) ms
  | .RemoveLine l' :: ms => lastIsUpdate l (if l' = l then false else b) ms
  | .Log _ :: ms => lastIsUpdate l b ms

/-- Reading (with default `d`) past a `Vec::resize`-style extension by
copies of `d` is the same as reading the original list. -/
theorem getElem?_append_replicate {α : Type} (d : α) (xs : List α)
    (n j : Nat) :
    ((xs ++ List.replicate n d)[j]?).getD d = (xs[j]?).getD d := by
  by_cases hj : j < xs.length
  · rw [List.getElem?_append, if_pos hj]
  · rw [List.getElem?_append_right (Nat.le_of_not_lt hj),
      List.getElem?_replicate, List.getElem?_eq_none (Nat.le_of_not_lt hj)]
    by_cases hr : j - xs.length < n
    · rw [if_pos hr]; rfl
    · rw [if_neg hr]

/-- The effect of one processed message on the presence of slot `l`:
an update makes its level present, a removal makes its level absent,
anything else leaves presence unchanged. -/
theorem slotPresent_parse (lines lines' : RowTable) (msg : WriteMsg)
    (p : ParsedMessage) (l : Nat)
    (h : parse_message lines msg = some (lines', p)) :
    slotPresent lines' l =
      match msg with
      | .UpdateLine l' _ => if l' = l then true else slotPresent lines l
      | .RemoveLine l' => if l' = l then false else slotPresent lines l
      | .Log _ => slotPresent lines l := by
  cases msg with
  | UpdateLine level line =>
      simp only [parse_message] at h
      by_cases hlen : lines.length ≤ level
      · rw [if_pos hlen, Option.some.injEq, Prod.mk.injEq] at h
        obtain ⟨hl, hp⟩ := h
        subst hl
        by_cases heq : level = l
        · subst heq
          have hlt : level < (lines ++
              List.replicate (level + 1 - lines.length) none).length := by
            simp only [List.length_append, List.length_replicate]
            omega
          simp [slotPresent, List.getD_eq_getElem?_getD,
            List.getElem?_set_self hlt]
        · simp [slotPresent, List.getD_eq_getElem?_getD, heq,
            List.getElem?_set_ne heq, getElem?_append_replicate]
      · rw [if_neg hlen] at h
        have hlt : level < lines.length := Nat.lt_of_not_le hlen
        by_cases hnone : (lines.getD level none).isNone
        · rw [if_pos hnone, Option.some.injEq, Prod.mk.injEq] at h
          obtain ⟨hl, hp⟩ := h
          subst hl
          by_cases heq : level = l
          · subst heq
            simp [slotPresent, List.getD_eq_getElem?_getD,
              List.getElem?_set_self hlt]
          · simp [slotPresent, List.getD_eq_getElem?_getD, heq,
              List.getElem?_set_ne heq]
        · rw [if_neg hnone, Option.some.injEq, Prod.mk.injEq] at h
          obtain ⟨hl, hp⟩ := h
          subst hl
          by_cases heq : level = l
          · subst heq
            simp [slotPresent, List.getD_eq_getElem?_getD,
              List.getElem?_set_self hlt]
          · simp [slotPresent, List.getD_eq_getElem?_getD, heq,
              List.getElem?_set_ne heq]
  | RemoveLine level =>
      simp only [parse_message] at h
      by_cases hlt : level < lines.length
      · rw [if_pos hlt, Option.some.injEq, Prod.mk.injEq] at h
        obtain ⟨hl, hp⟩ := h
        subst hl
        by_cases heq : level = l
        · subst heq
          simp [slotPresent, List.getD_eq_getElem?_getD,
            List.getElem?_set_self hlt]
        · simp [slotPresent, List.getD_eq_getElem?_getD, heq,
            List.getElem?_set_ne heq]
      · rw [if_neg hlt] at h
        cases h
  | Log d =>
      simp only [parse_message] at h
      by_cases hd : d.isEmpty
      · rw [if_pos hd, Option.some.injEq, Prod.mk.injEq] at h
        obtain ⟨hl, hp⟩ := h
        subst hl
        rfl
      · rw [if_neg hd, Option.some.injEq, Prod.mk.injEq] at h
        obtain ⟨hl, hp⟩ := h
        subst hl
        rfl

/-- Processing a sequence of messages tracks, for every level, whether the
most recent update-or-remove message for it was an update. -/
theorem processMsgs_slotPresent (msgs : List WriteMsg)
    (lines lines' : RowTable) (h : processMsgs lines msgs = some lines')
    (l : Nat) :
    slotPresent lines' l = lastIsUpdate l (slotPresent lines l) msgs := by
  induction msgs generalizing lines with
  | nil =>
      simp only [processMsgs] at h
      obtain rfl := Option.some.inj h
      rfl
  | cons m ms ih =>
      simp only [processMsgs] at h
      cases hp : parse_message lines m with
      | none => simp [hp] at h
      | some r =>
          obtain ⟨lines₁, p⟩ := r
          simp only [hp] at h
          have hrec := ih lines₁ h
          cases m with
          | UpdateLine l' s =>
              have hstep : slotPresent lines₁ l =
                  if l' = l then true else slotPresent lines l :=
                slotPresent_parse lines lines₁ _ p l hp
              simp only [lastIsUpdate]
              rw [hrec, hstep]
          | RemoveLine l' =>
              have hstep : slotPresent lines₁ l =
                  if l' = l then false else slotPresent lines l :=
                slotPresent_parse lines lines₁ _ p l hp
              simp only [lastIsUpdate]
              rw [hrec, hstep]
          | Log d =>
              have hstep : slotPresent lines₁ l = slotPresent lines l :=
                slotPresent_parse lines lines₁ _ p l hp
              simp only [lastIsUpdate]
              rw [hrec, hstep]

/-- One output token written to the sink. The external `tty` escape
producers (`move_cursor_up`, `clear_until_newline`, `clear_after_cursor`)
are out of scope of this crate and abstracted as tokens; `cr`/`nl` are the
literal `"\r"`/`"\n"` writes, `text` a `&str` write, `raw` a raw-byte
write (`write_all` of log data). -/
inductive Out where
  | moveUp (n : Nat)
  | cr
  | clearAfter
  | clearEol
  | text (s : String)
  | raw (d : List Nat)
  | nl
deriving DecidableEq, Repr

/-- The token sequence `redraw` writes for one present row: `"\r"`, the
row text, clear-until-newline, `"\n"`. -/
def renderRow (s : String) : List Out :=
  [Out.cr, Out.text s, Out.clearEol, Out.nl]

/-- The row-drawing loop of `MultiBarListener::redraw`: one rendered row
per `Some` slot, in table order, counting the drawn rows
(`current_lines`). -/
def drawRows : RowTable → List Out × Nat
  | [] => ([], 0)
  | none :: rest => drawRows rest
  | some s :: rest =>
      let r := drawRows rest
      (renderRow s ++ r.1, r.2 + 1)

/-- Mirrors `MultiBarListener::redraw`: cursor-up over the rows of the
previous frame (if any), the optional one-shot log line, then all present
rows; returns the written tokens and the number of drawn rows. -/
def redraw (lines : RowTable) (previous_lines : Nat)
    (log_data : Option (List Nat)) : List Out × Nat :=
  let headMove : List Out :=
    if previous_lines > 0 then [Out.moveUp previous_lines] else []
  let headLog : List Out :=
    match log_data with
    | some d => [Out.cr, Out.clearAfter, Out.raw d, Out.nl]
    | none => []
  let r := drawRows lines
  (headMove ++ headLog ++ r.1, r.2)

/-- One iteration of the steady loop of `MultiBarListener::listen`:
parse the message, then (except for `NoChanges`) redraw, remembering the
number of drawn rows as the next cursor-up distance. State is the row
table together with `previous_lines`; the result also carries the tokens
written by this iteration (`none` models a panic in `parse_message`). -/
def steadyStep (st : RowTable × Nat) (msg : WriteMsg) :
    Option ((RowTable × Nat) × List Out) :=
  match parse_message st.1 msg with
  | none => none
  | some (lines', parsed) =>
      match parsed with
      | .NoChanges => some ((lines', st.2), [])
      | .Changed _ =>
          let r := redraw lines' st.2 none
          some ((lines', r.2), r.1)
      | .Log d =>
          let r := redraw lines' st.2 (some d)
          some ((lines', r.2), r.1)
      | .Refresh =>
          let r := redraw lines' st.2 none
          some ((lines', r.2), r.1)

/-- The warm-up phase of `MultiBarListener::listen`: every already-queued
message is parsed (mutating the row table) without any redraw; only log
messages are written out immediately (`write_all` of the raw data).
Returns the row table after the drain and the tokens written during it. -/
def warmup (lines : RowTable) : List WriteMsg → Option (RowTable × List Out)
  | [] => some (lines, [])
  | m :: ms =>
      match parse_message lines m with
      | none => none
      | some (lines', parsed) =>
          match warmup lines' ms with
          | none => none
          | some (fin, outs) =>
              match parsed with
              | .Log d => some (fin, Out.raw d :: outs)
              | _ => some (fin, outs)

/-- Mirrors `MultiBarListener::listen` up to and including the initial draw:
warm-up over the queued messages starting from the empty row table
(`previous_lines = 0`), then the single initial redraw. Returns the row
table, all tokens written, and the recorded number of drawn rows. -/
def listenStart (pending : List WriteMsg) :
    Option (RowTable × List Out × Nat) :=
  match warmup [] pending with
  | none => none
  | some (lines, louts) =>
      let r := redraw lines 0 none
      some (lines, louts ++ r.1, r.2)

/-- Outcome of `MultiBarLine::send` (`self.send.as_mut().unwrap().send(m)
.unwrap()`): either the message is enqueued, or one of the two `unwrap`s
panics — on `None` after `finish()` took the sender, or on `SendError`
when the channel is closed (the receiver, i.e. the coordinator, is gone). -/
inductive SendOutcome where
  | ok (m : WriteMsg)
  | panicNoSender
  | panicChannelClosed
deriving DecidableEq, Repr

/-- Mirrors `struct MultiBarLine` as far as message sending is concerned:
its level and its optional sender capability (`send: Option<Sender<_>>`).
The shared allocator handle plays no role in sending. -/
structure BarLine where
  level : Nat
  send : Bool
deriving DecidableEq, Repr

/-- Mirrors `MultiBarLine::send`. `closed` is whether the channel's
receiver (the coordinator) has been dropped. -/
def BarLine.sendMsg (h : BarLine) (closed : Bool) (m : WriteMsg) :
    SendOutcome :=
  if h.send then
    if closed then .panicChannelClosed else .ok m
  else
    .panicNoSender

/-- Mirrors `MultiBarLine::update_line`. -/
def BarLine.update_line (h : BarLine) (closed : Bool) (line : String) :
    SendOutcome :=
  h.sendMsg closed (.UpdateLine h.level line)

/-- Mirrors `MultiBarLine::remove_line`. -/
def BarLine.remove_line (h : BarLine) (closed : Bool) : SendOutcome :=
  h.sendMsg closed (.RemoveLine h.level)

/-- Mirrors `MultiBarLine::log` (`message.as_bytes().to_owned()` is
abstracted as a byte list). -/
def BarLine.logMsg (h : BarLine) (closed : Bool) (data : List Nat) :
    SendOutcome :=
  h.sendMsg closed (.Log data)

/-- Mirrors `MultiBarLine::finish`: `self.send.take()` drops the sender
capability. -/
def BarLine.finish (h : BarLine) : BarLine :=
  { h with send := false }

/-- Mirrors `struct LogTarget`: the accumulating byte buffer (the sender
half is kept implicit; forwarded messages are returned instead). -/
structure LogTarget where
  buf : List Nat
deriving DecidableEq, Repr

/-- The backward scan of `LogTarget::write`:
`for pos in (0..buf.len()).rev() { if buf[pos] == b'\n' { ... } }`,
i.e. the position of the last newline byte (10), if any. -/
def findLastNewline (buf : List Nat) : Option Nat :=
  (List.range buf.length).reverse.find? (fun pos => buf.getD pos 0 == 10)

/-- Mirrors `<LogTarget as Write>::write`: extend the buffer with the
input; if the result contains a newline, split after the last one, forward
everything before it (newline stripped) as one log message and keep the
rest. Reports the full input length as accepted. -/
def LogTarget.write (t : LogTarget) (input : List Nat) :
    LogTarget × List WriteMsg × Nat :=
  let buf := t.buf ++ input
  match findLastNewline buf with
  | some pos => (⟨buf.drop (pos + 1)⟩, [.Log (buf.take pos)], input.length)
  | none => (⟨buf⟩, [], input.length)

/-- Mirrors `<LogTarget as Write>::flush`: forward whatever is buffered,
even without a trailing newline, and clear the buffer. -/
def LogTarget.flush (t : LogTarget) : LogTarget × List WriteMsg :=
  (⟨[]⟩, [.Log t.buf])

-- Helper lemmas about `parse_message` shapes.

/-- Updating a slot that was just written is a pure `Changed`:
the table does not change again. -/
theorem parse_update_set (X : RowTable) (level : Nat) (s : String)
    (hlt : level < X.length) :
    parse_message (X.set level (some s)) (.UpdateLine level s) =
      some (X.set level (some s), .Changed level) := by
  have h1 : ¬((X.set level (some s)).length ≤ level) := by
    rw [List.length_set]; omega
  have h2 : (X.set level (some s)).getD level none = some s := by
    rw [List.getD_eq_getElem?_getD, List.getElem?_set_self hlt]; rfl
  simp only [parse_message]
  rw [if_neg h1, h2]
  simp [List.set_set]

/-- An update right after an update of the same level and text leaves the
table exactly as it was. -/
theorem parse_update_again (lines lines₁ : RowTable) (level : Nat)
    (s : String) (p : ParsedMessage)
    (h : parse_message lines (.UpdateLine level s) = some (lines₁, p)) :
    parse_message lines₁ (.UpdateLine level s) =
      some (lines₁, .Changed level) := by
  simp only [parse_message] at h
  by_cases hlen : lines.length ≤ level
  · rw [if_pos hlen, Option.some.injEq, Prod.mk.injEq] at h
    obtain ⟨hl, hp⟩ := h
    subst hl
    exact parse_update_set _ _ _ (by
      simp only [List.length_append, List.length_replicate]; omega)
  · rw [if_neg hlen] at h
    have hlt : level < lines.length := Nat.lt_of_not_le hlen
    by_cases hnone : (lines.getD level none).isNone
    · rw [if_pos hnone, Option.some.injEq, Prod.mk.injEq] at h
      obtain ⟨hl, hp⟩ := h
      subst hl
      exact parse_update_set _ _ _ hlt
    · rw [if_neg hnone, Option.some.injEq, Prod.mk.injEq] at h
      obtain ⟨hl, hp⟩ := h
      subst hl
      exact parse_update_set _ _ _ hlt

/-- An update message is never classified as a log. -/
theorem parse_update_not_log (lines lines₁ : RowTable) (lv : Nat)
    (s : String) (d : List Nat) :
    parse_message lines (.UpdateLine lv s) ≠
      some (lines₁, ParsedMessage.Log d) := by
  intro h
  simp only [parse_message] at h
  split at h
  · simp_all
  · split at h <;> simp_all

/-- A removal message is never classified as a log. -/
theorem parse_remove_not_log (lines lines₁ : RowTable) (lv : Nat)
    (d : List Nat) :
    parse_message lines (.RemoveLine lv) ≠
      some (lines₁, ParsedMessage.Log d) := by
  intro h
  simp only [parse_message] at h
  split at h <;> simp_all

/-- Evaluating `parse_message` on a log message: the table is untouched and the
classification depends only on whether the payload is empty. -/
theorem parse_log_eq (lines : RowTable) (d : List Nat) :
    parse_message lines (.Log d) =
      some (lines, if d.isEmpty then ParsedMessage.NoChanges
        else ParsedMessage.Log d) := by
  by_cases hd : d.isEmpty <;> simp [parse_message, hd]

/-- The drawn rows are exactly one `renderRow` per present slot, in table
order, and the drawn-row count is the number of present slots. -/
theorem drawRows_eq (lines : RowTable) :
    drawRows lines = ((lines.filterMap id).flatMap renderRow,
      lines.countP (fun o => o.isSome)) := by
  induction lines with
  | nil => rfl
  | cons hd tl ih =>
      cases hd with
      | none => simp [drawRows, ih, List.countP_cons]
      | some s => simp [drawRows, ih, List.countP_cons]

/-- After a steady-loop iteration, the recorded cursor-up distance is
either untouched (no repaint) or exactly the number of present slots of
the new table (the rows just drawn). -/
theorem steadyStep_prev (st : RowTable × Nat) (msg : WriteMsg)
    (st' : RowTable × Nat) (out : List Out)
    (h : steadyStep st msg = some (st', out)) :
    st'.2 = st.2 ∨ st'.2 = st'.1.countP (fun o => o.isSome) := by
  unfold steadyStep at h
  cases hp : parse_message st.1 msg with
  | none => rw [hp] at h; cases h
  | some r =>
      obtain ⟨lines₂, parsed⟩ := r
      rw [hp] at h
      cases parsed with
      | NoChanges =>
          simp only [Option.some.injEq, Prod.mk.injEq] at h
          obtain ⟨h1, h2⟩ := h
          subst h1
          exact Or.inl rfl
      | Changed lv =>
          simp only [Option.some.injEq, Prod.mk.injEq] at h
          obtain ⟨h1, h2⟩ := h
          subst h1
          refine Or.inr ?_
          show (redraw lines₂ st.2 none).2 = lines₂.countP _
          simp [redraw, drawRows_eq]
      | Log d =>
          simp only [Option.some.injEq, Prod.mk.injEq] at h
          obtain ⟨h1, h2⟩ := h
          subst h1
          refine Or.inr ?_
          show (redraw lines₂ st.2 (some d)).2 = lines₂.countP _
          simp [redraw, drawRows_eq]
      | Refresh =>
          simp only [Option.some.injEq, Prod.mk.injEq] at h
          obtain ⟨h1, h2⟩ := h
          subst h1
          refine Or.inr ?_
          show (redraw lines₂ st.2 none).2 = lines₂.countP _
          simp [redraw, drawRows_eq]

/-- The sink bytes produced during warm-up, read off the message queue:
the non-empty log payloads, in arrival order. -/
def warmupLogs : List WriteMsg → List Out
  | [] => []
  | .Log d :: ms =>
      if d.isEmpty then warmupLogs ms else Out.raw d :: warmupLogs ms
  | .UpdateLine _ _ :: ms => warmupLogs ms
  | .RemoveLine _ :: ms => warmupLogs ms

/-- Warm-up applies every queued message to the row table exactly as the
message processor does. -/
theorem warmup_table (pending : List WriteMsg) :
    ∀ lines fin outs, warmup lines pending = some (fin, outs) →
      processMsgs lines pending = some fin := by
  induction pending with
  | nil =>
      intro lines fin outs h
      simp only [warmup, Option.some.injEq, Prod.mk.injEq] at h
      simp [processMsgs, h.1]
  | cons m ms ih =>
      intro lines fin outs h
      simp only [warmup] at h
      cases hp : parse_message lines m with
      | none => simp [hp] at h
      | some r =>
          obtain ⟨lines₁, parsed⟩ := r
          simp only [hp] at h
          cases hw : warmup lines₁ ms with
          | none => simp [hw] at h
          | some r2 =>
              obtain ⟨fin', outs'⟩ := r2
              simp only [hw] at h
              simp only [processMsgs, hp]
              cases parsed with
              | NoChanges =>
                  simp only [Option.some.injEq, Prod.mk.injEq] at h
                  rw [← h.1]
                  exact ih lines₁ fin' outs' hw
              | Changed lv =>
                  simp only [Option.some.injEq, Prod.mk.injEq] at h
                  rw [← h.1]
                  exact ih lines₁ fin' outs' hw
              | Log d =>
                  simp only [Option.some.injEq, Prod.mk.injEq] at h
                  rw [← h.1]
                  exact ih lines₁ fin' outs' hw
              | Refresh =>
                  simp only [Option.some.injEq, Prod.mk.injEq] at h
                  rw [← h.1]
                  exact ih lines₁ fin' outs' hw

/-- The bytes warm-up writes to the sink are exactly the non-empty log
payloads of the queue, in arrival order. -/
theorem warmup_outs (pending : List WriteMsg) :
    ∀ lines fin outs, warmup lines pending = some (fin, outs) →
      outs = warmupLogs pending := by
  induction pending with
  | nil =>
      intro lines fin outs h
      simp only [warmup, Option.some.injEq, Prod.mk.injEq] at h
      simp [warmupLogs, ← h.2]
  | cons m ms ih =>
      intro lines fin outs h
      simp only [warmup] at h
      cases hp : parse_message lines m with
      | none => simp [hp] at h
      | some r =>
          obtain ⟨lines₁, parsed⟩ := r
          simp only [hp] at h
          cases hw : warmup lines₁ ms with
          | none => simp [hw] at h
          | some r2 =>
              obtain ⟨fin', outs'⟩ := r2
              simp only [hw] at h
              have houts := ih lines₁ fin' outs' hw
              cases m with
              | UpdateLine lv s =>
                  cases parsed with
                  | Log d => exact absurd hp (parse_update_not_log _ _ _ _ _)
                  | NoChanges =>
                      simp only [Option.some.injEq, Prod.mk.injEq] at h
                      simp only [warmupLogs]
                      rw [← h.2]
                      exact houts
                  | Changed l2 =>
                      simp only [Option.some.injEq, Prod.mk.injEq] at h
                      simp only [warmupLogs]
                      rw [← h.2]
                      exact houts
                  | Refresh =>
                      simp only [Option.some.injEq, Prod.mk.injEq] at h
                      simp only [warmupLogs]
                      rw [← h.2]
                      exact houts
              | RemoveLine lv =>
                  cases parsed with
                  | Log d => exact absurd hp (parse_remove_not_log _ _ _ _)
                  | NoChanges =>
                      simp only [Option.some.injEq, Prod.mk.injEq] at h
                      simp only [warmupLogs]
                      rw [← h.2]
                      exact houts
                  | Changed l2 =>
                      simp only [Option.some.injEq, Prod.mk.injEq] at h
                      simp only [warmupLogs]
                      rw [← h.2]
                      exact houts
                  | Refresh =>
                      simp only [Option.some.injEq, Prod.mk.injEq] at h
                      simp only [warmupLogs]
                      rw [← h.2]
                      exact houts
              | Log d =>
                  rw [parse_log_eq] at hp
                  by_cases hd : d.isEmpty
                  · rw [if_pos hd, Option.some.injEq, Prod.mk.injEq] at hp
                    obtain ⟨hp1, hp2⟩ := hp
                    subst hp2
                    simp only [Option.some.injEq, Prod.mk.injEq] at h
                    simp only [warmupLogs]
                    rw [if_pos hd, ← h.2]
                    exact houts
                  · rw [if_neg hd, Option.some.injEq, Prod.mk.injEq] at hp
                    obtain ⟨hp1, hp2⟩ := hp
                    subst hp2
                    simp only [Option.some.injEq, Prod.mk.injEq] at h
                    simp only [warmupLogs]
                    rw [if_neg hd, ← h.2, houts]

/-- C1: evaluation of `MultiBarLine::update_line` on a handle that still
holds its sender while the channel is closed (the coordinator is
terminated): the `send(m).unwrap()` panics on the `SendError` instead of
dropping the message as a recoverable failure. -/
theorem C1_update_after_shutdown_panics (level : Nat) (s : String) :
    BarLine.update_line ⟨level, true⟩ true s = SendOutcome.panicChannelClosed := by
  rfl

/-- C2 (counterexample): a removal targeting level 0 while the row table
is empty does not grow the table with absent holes — it indexes the table
out of bounds, i.e. panics (modelled as `none`). -/
theorem C2_remove_out_of_bounds_panics :
    parse_message [] (.RemoveLine 0) = none := by
  rfl

/-- C2 (amended): an *update* targeting a level at or beyond the current
table length grows the table with absent holes up to that level (slot
`level` becomes present, every other slot keeps its presence, the new
length is `level + 1`) and is classified requires-full-refresh; a
*removal* at such a level instead panics with an out-of-bounds index. -/
theorem C2_update_grows_remove_panics (lines : RowTable) (level : Nat)
    (s : String) (h : lines.length ≤ level) :
    (∃ lines', parse_message lines (.UpdateLine level s) =
        some (lines', .Refresh) ∧
      lines'.length = level + 1 ∧
      slotPresent lines' level = true ∧
      ∀ l, l ≠ level → slotPresent lines' l = slotPresent lines l) ∧
    parse_message lines (.RemoveLine level) = none := by
  constructor
  · refine ⟨(lines ++ List.replicate (level + 1 - lines.length) none).set
      level (some s), ?_, ?_, ?_, ?_⟩
    · simp [parse_message, h]
    · simp only [List.length_set, List.length_append, List.length_replicate]
      omega
    · have hlt : level < (lines ++
          List.replicate (level + 1 - lines.length) none).length := by
        simp only [List.length_append, List.length_replicate]
        omega
      simp [slotPresent, List.getD_eq_getElem?_getD,
        List.getElem?_set_self hlt]
    · intro l hl
      have hstep : slotPresent ((lines ++
            List.replicate (level + 1 - lines.length) none).set
            level (some s)) l =
          if level = l then true else slotPresent lines l :=
        slotPresent_parse lines _ (.UpdateLine level s) .Refresh l
          (by simp [parse_message, h])
      rw [hstep, if_neg (fun he => hl (Eq.symm he))]
  · simp [parse_message, Nat.not_lt.mpr h]

/-- C2 (witness for the amended theorem) at a concrete input: table
`[some ("a")]`, level `2`. -/
theorem C2_update_grows_remove_panics_witness :
    (∃ lines', parse_message [some ("a")] (.UpdateLine 2 "x") =
        some (lines', .Refresh) ∧
      lines'.length = 2 + 1 ∧
      slotPresent lines' 2 = true ∧
      ∀ l, l ≠ 2 → slotPresent lines' l = slotPresent [some ("a")] l) ∧
    parse_message [some ("a")] (.RemoveLine 2) = none :=
  C2_update_grows_remove_panics [some ("a")] 2 "x" (by decide)

/-- C3: after any fully processed message sequence starting from the
empty table, a slot is present exactly when the most recent
update-or-remove message for its level was an update (log messages play
no role). -/
theorem C3_present_iff_last_update (msgs : List WriteMsg)
    (lines' : RowTable) (h : processMsgs [] msgs = some lines') (l : Nat) :
    slotPresent lines' l = lastIsUpdate l false msgs := by
  have hgen := processMsgs_slotPresent msgs [] lines' h l
  simpa [slotPresent] using hgen

/-- C3 (witness) on the concrete sequence update 0, empty log, remove 0,
update 1. -/
theorem C3_present_iff_last_update_witness :
    slotPresent [none, some ("b")] 0 = lastIsUpdate 0 false
        [.UpdateLine 0 "a", .Log [], .RemoveLine 0, .UpdateLine 1 "b"] ∧
      slotPresent [none, some ("b")] 1 = lastIsUpdate 1 false
        [.UpdateLine 0 "a", .Log [], .RemoveLine 0, .UpdateLine 1 "b"] :=
  ⟨C3_present_iff_last_update _ [none, some ("b")] (by rfl) 0,
   C3_present_iff_last_update _ [none, some ("b")] (by rfl) 1⟩

/-- C4 (counterexample): an update after a removal of the same level is
not a no-op — it changes the row table and makes the row present again
(`[none]` becomes `[some ("b")]`). -/
theorem C4_update_after_remove_not_noop :
    processMsgs [] [.UpdateLine 0 "a", .RemoveLine 0, .UpdateLine 0 "b"] =
        some [some ("b")] ∧
      processMsgs [] [.UpdateLine 0 "a", .RemoveLine 0] = some [none] ∧
      slotPresent [some ("b")] 0 = true := by
  refine ⟨rfl, rfl, rfl⟩

/-- C4 (amended): after `remove()` is processed for a handle's level, a
subsequent `update(text)` on that level re-inserts the row: the slot
becomes present again, holding the new text, and the message counts as
requires-full-refresh. -/
theorem C4_update_after_remove_reinserts (lines lines₁ : RowTable)
    (level : Nat) (s : String) (p : ParsedMessage)
    (h : parse_message lines (.RemoveLine level) = some (lines₁, p)) :
    parse_message lines₁ (.UpdateLine level s) =
        some (lines₁.set level (some s), .Refresh) ∧
      slotPresent (lines₁.set level (some s)) level = true ∧
      (lines₁.set level (some s)).getD level none = some s := by
  simp only [parse_message] at h
  by_cases hlt : level < lines.length
  · rw [if_pos hlt, Option.some.injEq, Prod.mk.injEq] at h
    obtain ⟨hl, hp⟩ := h
    subst hl
    have h1 : ¬((lines.set level none).length ≤ level) := by
      rw [List.length_set]; omega
    have h2 : (lines.set level none).getD level none = none := by
      rw [List.getD_eq_getElem?_getD, List.getElem?_set_self hlt]; rfl
    have h3 : level < (lines.set level none).length := by
      rw [List.length_set]; omega
    refine ⟨?_, ?_, ?_⟩
    · simp only [parse_message]
      rw [if_neg h1, h2]
      simp
    · unfold slotPresent
      rw [List.getD_eq_getElem?_getD, List.getElem?_set_self h3]
      rfl
    · rw [List.getD_eq_getElem?_getD, List.getElem?_set_self h3]
      rfl
  · rw [if_neg hlt] at h
    cases h

/-- C4 (witness for the amended theorem): removing then updating level 0
on the one-row table `[some ("a")]`. -/
theorem C4_update_after_remove_reinserts_witness :
    parse_message [none] (.UpdateLine 0 "b") =
        some (([none] : RowTable).set 0 (some ("b")), .Refresh) ∧
      slotPresent (([none] : RowTable).set 0 (some ("b"))) 0 = true ∧
      (([none] : RowTable).set 0 (some ("b"))).getD 0 none = some ("b") :=
  C4_update_after_remove_reinserts [some ("a")] [none] 0 "b" .Refresh (by rfl)

/-- C5: a repaint writes — after the cursor-up prefix and the optional
one-shot log line — exactly one row per present slot, in table order,
each as carriage return, the slot's text, clear-to-end-of-line, newline;
absent slots contribute nothing; the returned row count equals the number
of present slots; and a steady-loop iteration records as the next
cursor-up distance either the untouched previous value (no repaint) or
exactly the present-slot count of the new table. -/
theorem C5_redraw_one_row_per_present (lines : RowTable) (prev : Nat)
    (ld : Option (List Nat)) (st : RowTable × Nat) (msg : WriteMsg)
    (st' : RowTable × Nat) (out : List Out)
    (hstep : steadyStep st msg = some (st', out)) :
    ((redraw lines prev ld).1 =
        (if prev > 0 then [Out.moveUp prev] else []) ++
        (match ld with
         | some d => [Out.cr, Out.clearAfter, Out.raw d, Out.nl]
         | none => []) ++
        (lines.filterMap id).flatMap renderRow ∧
      (redraw lines prev ld).2 = lines.countP (fun o => o.isSome)) ∧
      (st'.2 = st.2 ∨ st'.2 = st'.1.countP (fun o => o.isSome)) := by
  refine ⟨⟨?_, ?_⟩, steadyStep_prev st msg st' out hstep⟩
  · simp [redraw, drawRows_eq]
  · simp [redraw, drawRows_eq]

/-- C5 (witness) at concrete inputs: repaint of `[some ("A"), none]` with a
previous frame of one row, and a steady-loop update step on
`([some ("x")], 0)`. -/
theorem C5_redraw_one_row_per_present_witness :
    ((redraw [some ("A"), none] 1 none).1 =
        (if 1 > 0 then [Out.moveUp 1] else []) ++
        (match (none : Option (List Nat)) with
         | some d => [Out.cr, Out.clearAfter, Out.raw d, Out.nl]
         | none => []) ++
        (([some ("A"), none] : RowTable).filterMap id).flatMap renderRow ∧
      (redraw [some ("A"), none] 1 none).2 =
        ([some ("A"), none] : RowTable).countP (fun o => o.isSome)) ∧
      ((([some ("y")], 1) : RowTable × Nat).2 =
          (([some ("x")], 0) : RowTable × Nat).2 ∨
        (([some ("y")], 1) : RowTable × Nat).2 =
          (([some ("y")], 1) : RowTable × Nat).1.countP (fun o => o.isSome)) :=
  C5_redraw_one_row_per_present [some ("A"), none] 1 none ([some ("x")], 0)
    (.UpdateLine 0 "y") ([some ("y")], 1)
    [Out.cr, Out.text ("y"), Out.clearEol, Out.nl] (by rfl)

/-- C6: the warm-up drain applies every queued message to the row table
(exactly like the message processor), writes only the non-empty log
payloads to the sink immediately and in arrival order, and the single
initial redraw happens only after the whole drain. -/
theorem C6_warmup_drains_then_single_redraw (pending : List WriteMsg)
    (fin : RowTable) (outs : List Out) (n : Nat)
    (h : listenStart pending = some (fin, outs, n)) :
    processMsgs [] pending = some fin ∧
      outs = warmupLogs pending ++ (redraw fin 0 none).1 ∧
      n = (redraw fin 0 none).2 := by
  unfold listenStart at h
  cases hw : warmup [] pending with
  | none => rw [hw] at h; cases h
  | some r =>
      obtain ⟨lines, louts⟩ := r
      rw [hw] at h
      simp only [Option.some.injEq, Prod.mk.injEq] at h
      obtain ⟨h1, h2, h3⟩ := h
      subst h1
      refine ⟨warmup_table pending [] lines louts hw, ?_, ?_⟩
      · rw [← h2, warmup_outs pending [] lines louts hw]
      · rw [← h3]

/-- C6 (witness) on the concrete queue: one log message (byte 65), one
update of level 0. -/
theorem C6_warmup_drains_then_single_redraw_witness :
    processMsgs [] [.Log [65], .UpdateLine 0 "A"] = some [some ("A")] ∧
      ([Out.raw [65], Out.cr, Out.text ("A"), Out.clearEol, Out.nl] :
          List Out) =
        warmupLogs [.Log [65], .UpdateLine 0 "A"] ++
          (redraw [some ("A")] 0 none).1 ∧
      1 = (redraw [some ("A")] 0 none).2 :=
  C6_warmup_drains_then_single_redraw
    [.Log [65], .UpdateLine 0 "A"] [some ("A")]
    [Out.raw [65], Out.cr, Out.text ("A"), Out.clearEol, Out.nl] 1 (by rfl)

/-- C7: the buffered log adapter, fed the ASCII bytes of `"hello "`, then
`"world\n"`, then `"partial"`, then an explicit flush, forwards exactly
two log messages: the bytes of `"hello world"` (split-point newline
stripped) and of `"partial"` (forwarded only by the flush), in order. -/
theorem C7_log_adapter_scenario :
    (let t0 : LogTarget := ⟨[]⟩
     let w1 := t0.write [104, 101, 108, 108, 111, 32]
     let w2 := w1.1.write [119, 111, 114, 108, 100, 10]
     let w3 := w2.1.write [112, 97, 114, 116, 105, 97, 108]
     let f := w3.1.flush
     w1.2.1 ++ w2.2.1 ++ w3.2.1 ++ f.2) =
      [WriteMsg.Log [104, 101, 108, 108, 111, 32, 119, 111, 114, 108, 100],
       WriteMsg.Log [112, 97, 114, 116, 105, 97, 108]] := by
  rfl

/-- C8: sending the same update text twice consecutively for a level
leaves the row table exactly as after sending it once (hence every row,
and so every repaint, renders identically). -/
theorem C8_update_idempotent (lines : RowTable) (level : Nat)
    (s : String) :
    processMsgs lines [.UpdateLine level s, .UpdateLine level s] =
      processMsgs lines [.UpdateLine level s] := by
  cases hp : parse_message lines (.UpdateLine level s) with
  | none => simp [processMsgs, hp]
  | some r =>
      obtain ⟨lines₁, p⟩ := r
      simp [processMsgs, hp, parse_update_again lines lines₁ level s p hp]

/-- C9: a log message never mutates the row table — the table after
parsing is the very same — and a log message with empty payload is a true
no-op in the steady loop: no output, state (table and cursor-up distance)
untouched. -/
theorem C9_log_leaves_table (lines : RowTable) (d : List Nat)
    (prev : Nat) :
    (∃ p, parse_message lines (.Log d) = some (lines, p)) ∧
      steadyStep (lines, prev) (.Log []) = some ((lines, prev), []) := by
  constructor
  · by_cases hd : d.isEmpty
    · exact ⟨.NoChanges, by simp [parse_message, hd]⟩
    · exact ⟨.Log d, by simp [parse_message, hd]⟩
  · simp [steadyStep, parse_message]

/-- C10: after `finish()` (which `take`s the sender), every subsequent
`update_line`, `remove_line`, or `log` on the same handle panics on the
`unwrap` of the absent sender — it is not a quiet no-op. -/
theorem C10_use_after_finish_panics (h : BarLine) (closed : Bool)
    (s : String) (d : List Nat) :
    (h.finish).update_line closed s = SendOutcome.panicNoSender ∧
      (h.finish).remove_line closed = SendOutcome.panicNoSender ∧
      (h.finish).logMsg closed d = SendOutcome.panicNoSender := by
  refine ⟨?_, ?_, ?_⟩ <;>
    simp [BarLine.finish, BarLine.update_line, BarLine.remove_line,
      BarLine.logMsg, BarLine.sendMsg]
